import Mathlib

/-!
Verification of the go-tdma package (tridiagonal matrix solver).

Shallow embedding of `tdma.go`.  Go `float64` arithmetic is modelled by
exact rational arithmetic (`ℚ`); slice indexing `s[i]` is modelled by
`List.getD s i 0` together with an explicit `panic` result constructor for
the one place where the Go code can index out of bounds (see `TDMA` below).
-/

namespace Tdma

/-- `Matrix` mirrors the Go struct `Matrix { n int; m []float64 }`:
an n×n tridiagonal matrix stored as a flat list of `3n-2` coefficients. -/
structure Matrix where
  n : ℕ
  m : List ℚ
  deriving DecidableEq, Repr

/-- Construction error of `New`: carries the offending length
(Go: `fmt.Errorf("%w: length %d must 3n-2", ErrInvalidTridiagonalMatrix, len(d))`). -/
structure InvalidTridiagonalMatrix where
  length : ℕ
  deriving DecidableEq, Repr

/-- Embedding of `New` (tdma.go lines 45-56): if `len(d) % 3 != 1` return the
`ErrInvalidTridiagonalMatrix` error, else build `{n: (len(d)-1)/3 + 1, m: d}`. -/
def New (d : List ℚ) : Except InvalidTridiagonalMatrix Matrix :=
  if d.length % 3 ≠ 1 then
    .error ⟨d.length⟩
  else
    .ok ⟨(d.length - 1) / 3 + 1, d⟩

/-- Result of `Matrix.TDMA`.  `errLen` is the length-mismatch error (line 64),
`errPivot i` the zero-pivot error naming row `i` (lines 69, 76, 83),
`panic` an out-of-bounds slice index (a Go runtime panic). -/
inductive TDMAResult where
  | ok (x : List ℚ)
  | errLen
  | errPivot (row : ℕ)
  | panic
  deriving DecidableEq, Repr

/-- The modified super-diagonal coefficients `c` of the forward sweep
(tdma.go lines 71 and 79):
`c[0] = m[1]/m[0]`, `c[i] = m[3i+1] / (m[3i] - m[3i-1]*c[i-1])`.
The Go loop fills `c[i]` for `i = 1 .. n-2`; the recursion is total on `ℕ`,
and `TDMA` only uses it within that range. -/
def cval (m : List ℚ) : ℕ → ℚ
  | 0 => m.getD 1 0 / m.getD 0 0
  | i + 1 =>
      m.getD (3 * (i + 1) + 1) 0 /
        (m.getD (3 * (i + 1)) 0 - m.getD (3 * (i + 1) - 1) 0 * cval m i)

/-- The zero-pivot test made at row `i ≥ 1` (tdma.go lines 74 and 81):
`m[i3] == m[i3-1]*c[i-1]` with `i3 = 3i`, compared before the subtraction. -/
def pivotFail (m : List ℚ) (i : ℕ) : Prop :=
  m.getD (3 * i) 0 = m.getD (3 * i - 1) 0 * cval m (i - 1)

instance (m : List ℚ) (i : ℕ) : Decidable (pivotFail m i) := by
  unfold pivotFail; infer_instance

/-- The first row in `1, 2, ..., n-1` (checked in this order by the Go loop at
line 72 and the final check at line 81) whose pivot test fails, if any. -/
def firstPivotFail (m : List ℚ) (n : ℕ) : Option ℕ :=
  ((List.range (n - 1)).map (· + 1)).find? (fun i => decide (pivotFail m i))

/-- The intermediate vector `d` of the forward substitution
(tdma.go lines 87 and 90):
`d[0] = r[0]/m[0]`, `d[i] = (r[i] - m[3i-1]*d[i-1]) / (m[3i] - m[3i-1]*c[i-1])`. -/
def dval (m r : List ℚ) : ℕ → ℚ
  | 0 => r.getD 0 0 / m.getD 0 0
  | i + 1 =>
      (r.getD (i + 1) 0 - m.getD (3 * (i + 1) - 1) 0 * dval m r i) /
        (m.getD (3 * (i + 1)) 0 - m.getD (3 * (i + 1) - 1) 0 * cval m i)

/-- The back substitution (tdma.go lines 93-96), indexed from the bottom:
`xrev m r n j` is the value the Go code stores in `x[n-1-j]`:
`x[n-1] = d[n-1]` and `x[i] = d[i] - c[i]*x[i+1]` for `i = n-2 .. 0`. -/
def xrev (m r : List ℚ) (n : ℕ) : ℕ → ℚ
  | 0 => dval m r (n - 1)
  | j + 1 => dval m r (n - 1 - (j + 1)) - cval m (n - 1 - (j + 1)) * xrev m r n j

/-- The solution entry `x[i]` produced by the back substitution. -/
def xval (m r : List ℚ) (n i : ℕ) : ℚ :=
  xrev m r n (n - 1 - i)

/-- Embedding of `Matrix.TDMA` (tdma.go lines 62-99).
Control flow in source order:
* line 63: `len(r) != n` → length error;
* line 68: `m[0] == 0` → pivot error at row 0;
* line 71: `c[0] = m.m[1] / m.m[0]` — when `n = 1` the slice `c` has length
  `n-1 = 0` (and `m.m` has length `3n-2 = 1`), so this assignment indexes out
  of bounds and the Go program panics; for `n ≥ 2` every slice index of the
  remainder of the function is in bounds;
* lines 72-85: the pivot tests at rows `1 .. n-1`, in order, each returning
  the error naming its row;
* lines 86-98: `d`, then `x`, returned as the solution. -/
def TDMA (M : Matrix) (r : List ℚ) : TDMAResult :=
  if r.length ≠ M.n then
    .errLen
  else if M.m.getD 0 0 = 0 then
    .errPivot 0
  else if M.n = 1 then
    .panic
  else
    match firstPivotFail M.m M.n with
    | some i => .errPivot i
    | none => .ok ((List.range M.n).map (xval M.m r M.n))

/-- Embedding of `detF` (tdma.go lines 102-111):
`detF(elem, 0) = elem[0]`, `detF(elem, 1) = elem[3]*elem[0] - elem[2]*elem[1]`,
`detF(elem, n) = elem[3n]*detF(elem, n-1) - elem[3n-1]*elem[3n-2]*detF(elem, n-2)`. -/
def detF (elem : List ℚ) : ℕ → ℚ
  | 0 => elem.getD 0 0
  | 1 => elem.getD 3 0 * elem.getD 0 0 - elem.getD 2 0 * elem.getD 1 0
  | k + 2 =>
      elem.getD (3 * (k + 2)) 0 * detF elem (k + 1) -
        elem.getD (3 * (k + 2) - 1) 0 * elem.getD (3 * (k + 2) - 2) 0 * detF elem k

/-- Embedding of `Matrix.Determinant` (tdma.go line 114). -/
def Determinant (M : Matrix) : ℚ := detF M.m (M.n - 1)

/-- Well-formedness of a matrix as produced by `New`:
`n ≥ 1` and the coefficient list has exactly `3n - 2` elements. -/
def Wellformed (M : Matrix) : Prop :=
  1 ≤ M.n ∧ M.m.length = 3 * M.n - 2

instance (M : Matrix) : Decidable (Wellformed M) := by
  unfold Wellformed; infer_instance

/-! Spec-side definitions, written from the specification's words, to be
compared with the embedded code. -/

/-- Spec §3 layout: the diagonal entry of row `k` is at offset `3k`. -/
def diag (m : List ℚ) (k : ℕ) : ℚ := m.getD (3 * k) 0

/-- Spec §3 layout: the sub-diagonal entry of row `k ≥ 1` is at offset `3k-1`. -/
def subdiag (m : List ℚ) (k : ℕ) : ℚ := m.getD (3 * k - 1) 0

/-- Spec §3 layout: the super-diagonal entry of row `k ≤ n-2` is at offset `3k+1`. -/
def superdiag (m : List ℚ) (k : ℕ) : ℚ := m.getD (3 * k + 1) 0

/-- Modelled from the spec: row `i` of the dense matrix-vector product `M * x`
(the dense expansion of the tridiagonal matrix), used to state the round-trip
property.  Row 0 has no sub-diagonal term and row `n-1` no super-diagonal term. -/
def matVecEntry (m x : List ℚ) (n i : ℕ) : ℚ :=
  (if 1 ≤ i then subdiag m i * x.getD (i - 1) 0 else 0) +
    diag m i * x.getD i 0 +
    (if i + 1 < n then superdiag m i * x.getD (i + 1) 0 else 0)

/-- Modelled from the spec: the dense matrix-vector product `M * x`. -/
def matVec (m : List ℚ) (n : ℕ) (x : List ℚ) : List ℚ :=
  (List.range n).map (matVecEntry m x n)

/-- The spec's determinant recurrence (§4.3), written with the spec's
accessors: `det(0) = diag(0)`,
`det(1) = diag(1)*diag(0) - subdiag(1)*superdiag(0)`,
`det(k) = diag(k)*det(k-1) - subdiag(k)*superdiag(k-1)*det(k-2)`. -/
def detSpec (m : List ℚ) : ℕ → ℚ
  | 0 => diag m 0
  | 1 => diag m 1 * diag m 0 - subdiag m 1 * superdiag m 0
  | k + 2 =>
      diag m (k + 2) * detSpec m (k + 1) -
        subdiag m (k + 2) * superdiag m (k + 1) * detSpec m k

/-- Fuel-bounded evaluator for the `detF` recursion, used to establish that
the recursion terminates with call depth bounded by the index: each recursive
call strictly decreases the index (to `k+1` and `k` from `k+2`), so fuel
`k + 1` suffices to evaluate `detF elem k`. -/
def detFFuel (elem : List ℚ) : ℕ → ℕ → Option ℚ
  | _, 0 => none
  | 0, _ + 1 => some (elem.getD 0 0)
  | 1, _ + 1 => some (elem.getD 3 0 * elem.getD 0 0 - elem.getD 2 0 * elem.getD 1 0)
  | k + 2, fuel + 1 =>
      match detFFuel elem (k + 1) fuel, detFFuel elem k fuel with
      | some a, some b =>
          some (elem.getD (3 * (k + 2)) 0 * a -
            elem.getD (3 * (k + 2) - 1) 0 * elem.getD (3 * (k + 2) - 2) 0 * b)
      | _, _ => none

/-- The spec's forward-elimination coefficients (§4.2 step 1), written with
the spec's accessors: `c[0] = superdiag(0)/diag(0)`,
`c[i] = superdiag(i) / (diag(i) - subdiag(i)*c[i-1])`. -/
def cSpec (m : List ℚ) : ℕ → ℚ
  | 0 => superdiag m 0 / diag m 0
  | i + 1 => superdiag m (i + 1) / (diag m (i + 1) - subdiag m (i + 1) * cSpec m i)

/-- The spec's forward substitution (§4.2 step 2): `d[0] = r[0]/diag(0)`,
`d[i] = (r[i] - subdiag(i)*d[i-1]) / (diag(i) - subdiag(i)*c[i-1])`. -/
def dSpec (m r : List ℚ) : ℕ → ℚ
  | 0 => r.getD 0 0 / diag m 0
  | i + 1 =>
      (r.getD (i + 1) 0 - subdiag m (i + 1) * dSpec m r i) /
        (diag m (i + 1) - subdiag m (i + 1) * cSpec m i)

/-- The spec's back substitution (§4.2 step 3), indexed from the bottom:
`x[n-1] = d[n-1]`, `x[i] = d[i] - c[i]*x[i+1]` for `i = n-2` down to `0`;
`xSpecRev m r n j` is `x[n-1-j]`. -/
def xSpecRev (m r : List ℚ) (n : ℕ) : ℕ → ℚ
  | 0 => dSpec m r (n - 1)
  | j + 1 => dSpec m r (n - 1 - (j + 1)) - cSpec m (n - 1 - (j + 1)) * xSpecRev m r n j

/-- The solution vector of the spec's three-step algorithm (§4.2). -/
def specSolve (m r : List ℚ) (n : ℕ) : List ℚ :=
  (List.range n).map (fun i => xSpecRev m r n (n - 1 - i))

/-! Theorems. -/

/-- C5: `New` succeeds iff `(L-1) % 3 = 0` with `L ≥ 1`; on success the matrix
stores `n = (L-1)/3 + 1` and the coefficient list verbatim; on failure the
error carries the offending length and no matrix is returned. -/
theorem C5_new_validation (d : List ℚ) :
    ((∃ M, New d = .ok M) ↔ 1 ≤ d.length ∧ (d.length - 1) % 3 = 0) ∧
    (d.length % 3 = 1 → New d = .ok ⟨(d.length - 1) / 3 + 1, d⟩) ∧
    (d.length % 3 ≠ 1 → New d = .error ⟨d.length⟩) := by
  unfold New
  by_cases h : d.length % 3 = 1 <;> simp [h] <;> omega

/-- Witness for C5 on concrete inputs of valid and invalid length. -/
theorem C5_new_validation_witness :
    New ([2, 1, 1, 2] : List ℚ) = .ok ⟨2, [2, 1, 1, 2]⟩ ∧
    New ([1, 2] : List ℚ) = .error ⟨2⟩ :=
  ⟨(C5_new_validation [2, 1, 1, 2]).2.1 (by decide),
   (C5_new_validation [1, 2]).2.2 (by decide)⟩

/-- C7: when `len(r) ≠ n`, `TDMA` fails with the length-mismatch `TDMAFailure`
and carries no partial output (the error constructor holds no data); none of
the elimination is reached. -/
theorem C7_rhs_length_mismatch (M : Matrix) (r : List ℚ) (h : r.length ≠ M.n) :
    TDMA M r = .errLen := by
  unfold TDMA
  simp [h]

/-- Witness for C7: a 2×2 matrix with a length-1 right-hand side. -/
theorem C7_rhs_length_mismatch_witness : TDMA ⟨2, [1, 1, 1, 1]⟩ [1] = .errLen :=
  C7_rhs_length_mismatch ⟨2, [1, 1, 1, 1]⟩ [1] (by decide)

/-- C9: `TDMA` is a pure function of its two inputs — identical matrix and
right-hand side give identical results, with no hidden state. -/
theorem C9_deterministic (M₁ M₂ : Matrix) (r₁ r₂ : List ℚ)
    (hM : M₁ = M₂) (hr : r₁ = r₂) : TDMA M₁ r₁ = TDMA M₂ r₂ := by
  rw [hM, hr]

/-- Witness for C9 at a concrete input. -/
theorem C9_deterministic_witness :
    TDMA ⟨2, [2, 1, 1, 2]⟩ [3, 3] = TDMA ⟨2, [2, 1, 1, 2]⟩ [3, 3] :=
  C9_deterministic ⟨2, [2, 1, 1, 2]⟩ ⟨2, [2, 1, 1, 2]⟩ [3, 3] [3, 3] rfl rfl

/-- C2 fails on the code: the valid 1×1 matrix `[1]` (accepted by `New`) with
the matching right-hand side `[1]` drives `TDMA` into the out-of-bounds
assignment `c[0] = m.m[1] / m.m[0]` at tdma.go line 71 (`c` has length
`n-1 = 0` and `m.m` has length `3n-2 = 1`), a Go runtime panic. -/
theorem C2_n1_panics :
    New ([1] : List ℚ) = .ok ⟨1, [1]⟩ ∧ TDMA ⟨1, [1]⟩ [1] = .panic := by
  constructor <;> rfl

/-- C8: the end-to-end scenario from the test vectors: coefficients
`{2,1, 1,2,1, 1,2,1, 1,2}` with rhs `{4,8,12,11}` construct successfully and
solve to exactly `{1,2,3,4}` in exact arithmetic, hence within `1e-3`
componentwise of `{1,2,3,4}`. -/
theorem C8_end_to_end :
    New ([2, 1, 1, 2, 1, 1, 2, 1, 1, 2] : List ℚ) =
      .ok ⟨4, [2, 1, 1, 2, 1, 1, 2, 1, 1, 2]⟩ ∧
    ∃ x, TDMA ⟨4, [2, 1, 1, 2, 1, 1, 2, 1, 1, 2]⟩ [4, 8, 12, 11] = .ok x ∧
      x.length = 4 ∧
      ∀ i < 4, |x.getD i 0 - ([1, 2, 3, 4] : List ℚ).getD i 0| ≤ 1 / 1000 := by
  refine ⟨by rfl, [1, 2, 3, 4], ?_, by rfl, ?_⟩
  · norm_num [TDMA, firstPivotFail, pivotFail, cval, dval, xval, xrev, List.find?,
      List.range_succ]
  · intro i hi
    interval_cases i <;> norm_num

/-- Auxiliary for C4: the code's `detF` computes exactly the spec's
three-term recurrence at every index. -/
theorem detF_eq_detSpec (m : List ℚ) : ∀ k, detF m k = detSpec m k := by
  intro k
  induction k using Nat.strong_induction_on with
  | _ k ih =>
    match k with
    | 0 => rfl
    | 1 => rfl
    | k + 2 =>
      have h1 : 3 * (k + 2) - 2 = 3 * (k + 1) + 1 := by omega
      show m.getD (3 * (k + 2)) 0 * detF m (k + 1) -
          m.getD (3 * (k + 2) - 1) 0 * m.getD (3 * (k + 2) - 2) 0 * detF m k =
        diag m (k + 2) * detSpec m (k + 1) -
          subdiag m (k + 2) * superdiag m (k + 1) * detSpec m k
      rw [ih (k + 1) (by omega), ih k (by omega)]
      unfold diag subdiag superdiag
      rw [h1]

/-- C4: for every well-formed matrix, `Determinant` is total (it is a function
with no error path) and equals the spec's recurrence `det(n-1)` over leading
principal submatrices with `diag(k) = m[3k]`, `subdiag(k) = m[3k-1]`,
`superdiag(k-1) = m[3k-2]`. -/
theorem C4_determinant_recurrence (M : Matrix) (_hw : Wellformed M) :
    Determinant M = detSpec M.m (M.n - 1) :=
  detF_eq_detSpec M.m (M.n - 1)

/-- Witness for C4 on the 4×4 matrix of the test vectors. -/
theorem C4_determinant_recurrence_witness :
    Determinant ⟨4, [2, 1, 1, 2, 1, 1, 2, 1, 1, 2]⟩ =
      detSpec [2, 1, 1, 2, 1, 1, 2, 1, 1, 2] 3 :=
  C4_determinant_recurrence ⟨4, [2, 1, 1, 2, 1, 1, 2, 1, 1, 2]⟩ (by decide)

/-- Auxiliary for C10: fuel exceeding the index is enough for the fuel-bounded
evaluator to return the value of `detF` — the recursion depth of `detF elem k`
is bounded by `k`, since each recursive call strictly decreases the index. -/
theorem detFFuel_spec (elem : List ℚ) :
    ∀ fuel k, k < fuel → detFFuel elem k fuel = some (detF elem k) := by
  intro fuel
  induction fuel with
  | zero => intro k h; omega
  | succ fuel ih =>
    intro k h
    match k with
    | 0 => rfl
    | 1 => rfl
    | k + 2 =>
      show (match detFFuel elem (k + 1) fuel, detFFuel elem k fuel with
        | some a, some b =>
            some (elem.getD (3 * (k + 2)) 0 * a -
              elem.getD (3 * (k + 2) - 1) 0 * elem.getD (3 * (k + 2) - 2) 0 * b)
        | _, _ => none) = some (detF elem (k + 2))
      rw [ih (k + 1) (by omega), ih k (by omega)]
      rfl

/-- C10: the recursion of `detF` terminates on every well-formed input —
evaluation of `detF(elem, n-1)` needs at most `n` levels of recursion, each
call strictly decreasing the index with base cases at 0 and 1, so
`Determinant` is a total function. -/
theorem C10_detF_terminates (M : Matrix) (hw : Wellformed M) :
    detFFuel M.m (M.n - 1) M.n = some (Determinant M) :=
  detFFuel_spec M.m M.n (M.n - 1) (by have := hw.1; omega)

/-- Witness for C10 on the 4×4 matrix of the test vectors. -/
theorem C10_detF_terminates_witness :
    detFFuel [2, 1, 1, 2, 1, 1, 2, 1, 1, 2] 3 4 =
      some (Determinant ⟨4, [2, 1, 1, 2, 1, 1, 2, 1, 1, 2]⟩) :=
  C10_detF_terminates ⟨4, [2, 1, 1, 2, 1, 1, 2, 1, 1, 2]⟩ (by decide)

/-- Auxiliary: `find?` over the list `[s, s+1, ..., s+k-1]` returns `none` iff
no element of that interval satisfies the predicate. -/
theorem find?_map_range_eq_none (p : ℕ → Bool) (k s : ℕ) :
    ((List.range k).map (· + s)).find? p = none ↔
      ∀ j, s ≤ j → j < s + k → p j = false := by
  rw [List.find?_eq_none]
  constructor
  · intro h j h1 h2
    have hj : j ∈ (List.range k).map (· + s) := by
      simp only [List.mem_map, List.mem_range]
      exact ⟨j - s, by omega, by omega⟩
    simpa using h _ hj
  · intro h z hz
    simp only [List.mem_map, List.mem_range] at hz
    obtain ⟨a, ha, rfl⟩ := hz
    simp [h (a + s) (by omega) (by omega)]

/-- Auxiliary: `find?` over the list `[s, s+1, ..., s+k-1]` returns `some i`
iff `i` is the least element of that interval satisfying the predicate. -/
theorem find?_map_range_eq_some (p : ℕ → Bool) (s : ℕ) :
    ∀ k i, (((List.range k).map (· + s)).find? p = some i ↔
      (s ≤ i ∧ i < s + k ∧ p i = true ∧ ∀ j, s ≤ j → j < i → p j = false)) := by
  intro k
  induction k with
  | zero =>
    intro i
    simp only [List.range_zero, List.map_nil, List.find?_nil]
    constructor
    · intro h; cases h
    · rintro ⟨h1, h2, -, -⟩; omega
  | succ k ih =>
    intro i
    rw [List.range_succ, List.map_append, List.find?_append]
    rcases hk : ((List.range k).map (· + s)).find? p with _ | a
    · rw [find?_map_range_eq_none] at hk
      simp only [Option.none_or, List.map_cons, List.map_nil, List.find?_cons]
      rcases hpk : p (k + s) with _ | _
      · simp only [List.find?_nil]
        constructor
        · intro h; cases h
        · rintro ⟨h1, h2, hpi, hall⟩
          rcases Nat.lt_or_ge i (s + k) with hlt | hge
          · rw [hk i h1 hlt] at hpi; cases hpi
          · have : i = k + s := by omega
            rw [this] at hpi; rw [hpk] at hpi; cases hpi
      · constructor
        · intro h
          injection h with h
          subst h
          exact ⟨by omega, by omega, hpk, fun j h1 h2 => hk j h1 (by omega)⟩
        · rintro ⟨h1, h2, hpi, hall⟩
          have : i = k + s := by
            rcases Nat.lt_or_ge i (s + k) with hlt | hge
            · rw [hk i h1 hlt] at hpi; cases hpi
            · omega
          rw [this]
    · have ha := (ih a).mp hk
      simp only [Option.or_some]
      constructor
      · intro h
        injection h with h
        subst h
        exact ⟨ha.1, by omega, ha.2.2.1, ha.2.2.2⟩
      · rintro ⟨h1, h2, hpi, hall⟩
        have : i = a := by
          rcases Nat.lt_trichotomy i a with hlt | heq | hgt
          · rw [ha.2.2.2 i h1 hlt] at hpi; cases hpi
          · exact heq
          · have := hall a ha.1 hgt
            rw [this] at ha
            rcases ha with ⟨-, -, hfalse, -⟩
            cases hfalse
        rw [this]
/-- Auxiliary: no pivot failure is found iff every row `1 .. n-1` passes the
equality test of tdma.go lines 74/81. -/
theorem firstPivotFail_eq_none (m : List ℚ) (n : ℕ) :
    firstPivotFail m n = none ↔ ∀ j, 1 ≤ j → j ≤ n - 1 → ¬ pivotFail m j := by
  unfold firstPivotFail
  rw [find?_map_range_eq_none]
  constructor
  · intro h j h1 h2
    simpa using h j h1 (by omega)
  · intro h j h1 h2
    simpa using h j h1 (by omega)

/-- Auxiliary: the pivot scan reports row `i` iff `i` is the first row in
`1 .. n-1` whose equality test fires. -/
theorem firstPivotFail_eq_some (m : List ℚ) (n i : ℕ) :
    firstPivotFail m n = some i ↔
      (1 ≤ i ∧ i ≤ n - 1 ∧ pivotFail m i ∧
        ∀ j, 1 ≤ j → j < i → ¬ pivotFail m j) := by
  unfold firstPivotFail
  rw [find?_map_range_eq_some]
  constructor
  · rintro ⟨h1, h2, h3, h4⟩
    exact ⟨h1, by omega, by simpa using h3, fun j hj1 hj2 => by simpa using h4 j hj1 hj2⟩
  · rintro ⟨h1, h2, h3, h4⟩
    exact ⟨h1, by omega, by simpa using h3, fun j hj1 hj2 => by simpa using h4 j hj1 hj2⟩

/-- C6: with a matching right-hand side, a zero row-0 diagonal fails naming
row 0; otherwise the first row `i` in `1 .. n-1` whose diagonal exactly equals
`subdiag(i) * c[i-1]` (the comparison made before the subtraction — this is
`pivotFail`, the literal equality test of tdma.go lines 74/81) fails naming
row `i`; and if no row fires the test, no pivot error is returned. -/
theorem C6_zero_pivot_detection (M : Matrix) (r : List ℚ)
    (_hw : Wellformed M) (hr : r.length = M.n) :
    (M.m.getD 0 0 = 0 → TDMA M r = .errPivot 0) ∧
    (M.m.getD 0 0 ≠ 0 →
      ∀ i, 1 ≤ i → i ≤ M.n - 1 → pivotFail M.m i →
        (∀ j, 1 ≤ j → j < i → ¬ pivotFail M.m j) → TDMA M r = .errPivot i) ∧
    (M.m.getD 0 0 ≠ 0 → (∀ j, 1 ≤ j → j ≤ M.n - 1 → ¬ pivotFail M.m j) →
      ∀ i, TDMA M r ≠ .errPivot i) := by
  refine ⟨fun h0 => ?_, fun h0 i hi1 hi2 hpf hmin => ?_, fun h0 hnone i => ?_⟩
  · unfold TDMA
    rw [if_neg (by omega), if_pos h0]
  · unfold TDMA
    rw [if_neg (by omega), if_neg h0, if_neg (by omega : ¬ M.n = 1)]
    rw [(firstPivotFail_eq_some M.m M.n i).mpr ⟨hi1, hi2, hpf, hmin⟩]
  · unfold TDMA
    rw [if_neg (by omega), if_neg h0]
    by_cases h1 : M.n = 1
    · rw [if_pos h1]
      intro h
      cases h
    · rw [if_neg h1, (firstPivotFail_eq_none M.m M.n).mpr hnone]
      intro h
      cases h

/-- Witness for C6: a 2×2 matrix whose interior pivot collapses exactly. -/
theorem C6_zero_pivot_detection_witness :
    TDMA ⟨2, [1, 1, 1, 1]⟩ [1, 2] = .errPivot 1 :=
  (C6_zero_pivot_detection ⟨2, [1, 1, 1, 1]⟩ [1, 2] (by decide) (by decide)).2.1
    (by norm_num) 1 (by norm_num) (by norm_num)
    (by norm_num [pivotFail, cval]) (fun j h1 h2 => absurd h2 (by omega))
/-- Auxiliary for C3: the code's forward-elimination coefficients equal the
spec's `c` recurrence at every index. -/
theorem cSpec_eq_cval (m : List ℚ) : ∀ i, cSpec m i = cval m i := by
  intro i
  induction i with
  | zero => rfl
  | succ i ih =>
    show superdiag m (i + 1) / (diag m (i + 1) - subdiag m (i + 1) * cSpec m i) = _
    rw [ih]
    rfl

/-- Auxiliary for C3: the code's forward substitution equals the spec's `d`
recurrence at every index. -/
theorem dSpec_eq_dval (m r : List ℚ) : ∀ i, dSpec m r i = dval m r i := by
  intro i
  induction i with
  | zero => rfl
  | succ i ih =>
    show (r.getD (i + 1) 0 - subdiag m (i + 1) * dSpec m r i) /
        (diag m (i + 1) - subdiag m (i + 1) * cSpec m i) = _
    rw [ih, cSpec_eq_cval]
    rfl

/-- Auxiliary for C3: the code's back substitution equals the spec's `x`
recurrence at every index from the bottom. -/
theorem xSpecRev_eq_xrev (m r : List ℚ) (n : ℕ) :
    ∀ j, xSpecRev m r n j = xrev m r n j := by
  intro j
  induction j with
  | zero =>
    show dSpec m r (n - 1) = dval m r (n - 1)
    rw [dSpec_eq_dval]
  | succ j ih =>
    show dSpec m r (n - 1 - (j + 1)) - cSpec m (n - 1 - (j + 1)) * xSpecRev m r n j = _
    rw [dSpec_eq_dval, cSpec_eq_cval, ih]
    rfl

/-- C3: whenever `TDMA` succeeds, the returned vector is exactly the output
of the spec's three-step algorithm (forward elimination `c`, forward
substitution `d`, back substitution `x`), evaluated in that order in the
exact-arithmetic model. -/
theorem C3_solve_matches_spec (M : Matrix) (r x : List ℚ)
    (h : TDMA M r = .ok x) : x = specSolve M.m r M.n := by
  unfold TDMA at h
  split_ifs at h
  rcases hfp : firstPivotFail M.m M.n with _ | i <;> rw [hfp] at h
  · injection h with h
    subst h
    simp [specSolve, xval, xSpecRev_eq_xrev]
  · cases h

/-- Witness for C3 on a concrete solvable system. -/
theorem C3_solve_matches_spec_witness :
    ([1, 1] : List ℚ) = specSolve [2, 1, 1, 2] [3, 3] 2 :=
  C3_solve_matches_spec ⟨2, [2, 1, 1, 2]⟩ [3, 3] [1, 1]
    (by norm_num [TDMA, firstPivotFail, pivotFail, cval, dval, xval, xrev,
      List.find?, List.range_succ])
/-- Auxiliary: the dense product `M * x` has `n` entries. -/
theorem matVec_length (m : List ℚ) (n : ℕ) (x : List ℚ) :
    (matVec m n x).length = n := by
  simp [matVec]

/-- Auxiliary: entry `i < n` of the dense product `M * x`. -/
theorem matVec_getD (m x : List ℚ) (n i : ℕ) (h : i < n) :
    (matVec m n x).getD i 0 = matVecEntry m x n i := by
  have hlen : i < (matVec m n x).length := by simpa [matVec] using h
  rw [List.getD_eq_getElem _ _ hlen]
  simp [matVec]

/-- Auxiliary field identity: row 0 of the forward substitution. -/
theorem thomas_base (A B x0 x1 : ℚ) (hA : A ≠ 0) :
    (A * x0 + B * x1) / A = x0 + B / A * x1 := by
  field_simp
  ring

/-- Auxiliary field identity: an interior row of the forward substitution. -/
theorem thomas_step (A B C c xi xi1 xi2 : ℚ) (hD : B - A * c ≠ 0) :
    (A * xi + B * xi1 + C * xi2 - A * (xi + c * xi1)) / (B - A * c) =
      xi1 + C / (B - A * c) * xi2 := by
  field_simp
  ring

/-- Auxiliary field identity: the last row of the forward substitution. -/
theorem thomas_last (A B c xk xk1 : ℚ) (hD : B - A * c ≠ 0) :
    (A * xk + B * xk1 - A * (xk + c * xk1)) / (B - A * c) = xk1 := by
  rw [show A * xk + B * xk1 - A * (xk + c * xk1) = (B - A * c) * xk1 by ring]
  exact mul_div_cancel_left₀ xk1 hD

/-- Auxiliary for C1, forward substitution on `r = M * x` (dimension `k+2`):
the intermediate vector satisfies `d[i] = x[i] + c[i]*x[i+1]` for `i ≤ k`
and `d[k+1] = x[k+1]`, provided no pivot test fires. -/
theorem dval_matVec (m x : List ℚ) (k : ℕ) (hb : m.getD 0 0 ≠ 0)
    (hpiv : ∀ j, 1 ≤ j → j ≤ k + 1 → ¬ pivotFail m j) :
    (∀ i, i ≤ k → dval m (matVec m (k + 2) x) i =
      x.getD i 0 + cval m i * x.getD (i + 1) 0) ∧
    dval m (matVec m (k + 2) x) (k + 1) = x.getD (k + 1) 0 := by
  have hstep : ∀ i, i ≤ k → dval m (matVec m (k + 2) x) i =
      x.getD i 0 + cval m i * x.getD (i + 1) 0 := by
    intro i
    induction i with
    | zero =>
      intro _
      simp only [dval, cval]
      rw [matVec_getD m x (k + 2) 0 (by omega)]
      unfold matVecEntry diag superdiag
      rw [if_neg (by omega), if_pos (by omega)]
      simp only [Nat.mul_zero, Nat.zero_add, zero_add]
      exact thomas_base _ _ _ _ hb
    | succ i ih =>
      intro hik
      have hD : m.getD (3 * (i + 1)) 0 - m.getD (3 * (i + 1) - 1) 0 * cval m i ≠ 0 := by
        have := hpiv (i + 1) (by omega) (by omega)
        unfold pivotFail at this
        simpa using sub_ne_zero_of_ne this
      simp only [dval, cval]
      rw [matVec_getD m x (k + 2) (i + 1) (by omega)]
      unfold matVecEntry diag subdiag superdiag
      rw [if_pos (by omega), if_pos (by omega)]
      rw [ih (by omega)]
      simp only [Nat.add_sub_cancel]
      exact thomas_step _ _ _ _ _ _ _ hD
  refine ⟨hstep, ?_⟩
  have hD : m.getD (3 * (k + 1)) 0 - m.getD (3 * (k + 1) - 1) 0 * cval m k ≠ 0 := by
    have := hpiv (k + 1) (by omega) (by omega)
    unfold pivotFail at this
    simpa using sub_ne_zero_of_ne this
  simp only [dval]
  rw [matVec_getD m x (k + 2) (k + 1) (by omega)]
  unfold matVecEntry diag subdiag superdiag
  rw [if_pos (by omega), if_neg (by omega)]
  rw [hstep k (by omega)]
  simp only [Nat.add_sub_cancel, add_zero]
  exact thomas_last _ _ _ _ _ hD

/-- Auxiliary for C1, back substitution on `r = M * x` (dimension `k+2`):
every computed solution entry reproduces the corresponding entry of `x`. -/
theorem xrev_matVec (m x : List ℚ) (k : ℕ) (hb : m.getD 0 0 ≠ 0)
    (hpiv : ∀ j, 1 ≤ j → j ≤ k + 1 → ¬ pivotFail m j) :
    ∀ j, j ≤ k + 1 →
      xrev m (matVec m (k + 2) x) (k + 2) j = x.getD (k + 1 - j) 0 := by
  obtain ⟨hstep, hlast⟩ := dval_matVec m x k hb hpiv
  intro j
  induction j with
  | zero =>
    intro _
    exact hlast
  | succ j ih =>
    intro hj
    simp only [xrev]
    have h1 : k + 2 - 1 - (j + 1) = k - j := by omega
    rw [h1, ih (by omega), hstep (k - j) (by omega)]
    have h2 : k + 1 - j = k - j + 1 := by omega
    have h3 : k + 1 - (j + 1) = k - j := by omega
    rw [h2, h3]
    ring

/-- Auxiliary: everything that holds when `TDMA` returns a solution. -/
theorem TDMA_ok_elim (M : Matrix) (r y : List ℚ) (hy : TDMA M r = .ok y) :
    r.length = M.n ∧ M.m.getD 0 0 ≠ 0 ∧ M.n ≠ 1 ∧
      firstPivotFail M.m M.n = none ∧
      y = (List.range M.n).map (xval M.m r M.n) := by
  unfold TDMA at hy
  by_cases h1 : r.length ≠ M.n
  · rw [if_pos h1] at hy; cases hy
  · rw [if_neg h1] at hy
    by_cases h2 : M.m.getD 0 0 = 0
    · rw [if_pos h2] at hy; cases hy
    · rw [if_neg h2] at hy
      by_cases h3 : M.n = 1
      · rw [if_pos h3] at hy; cases hy
      · rw [if_neg h3] at hy
        rcases hfp : firstPivotFail M.m M.n with _ | i <;> rw [hfp] at hy
        · injection hy with hy
          exact ⟨not_ne_iff.mp h1, h2, h3, rfl, hy.symm⟩
        · cases hy

/-- C1 (amended): whenever `TDMA` succeeds on the right-hand side `M * x`
(dense expansion), the returned vector equals `x` exactly in the
exact-arithmetic model. -/
theorem C1_roundtrip (M : Matrix) (x : List ℚ) (hw : Wellformed M)
    (hx : x.length = M.n) (y : List ℚ)
    (hy : TDMA M (matVec M.m M.n x) = .ok y) : y = x := by
  obtain ⟨hn1, hlen⟩ := hw
  obtain ⟨hrlen, h0, hone, hfp, hmap⟩ := TDMA_ok_elim M (matVec M.m M.n x) y hy
  obtain ⟨k, hk⟩ : ∃ k, M.n = k + 2 := ⟨M.n - 2, by omega⟩
  have hpiv : ∀ j, 1 ≤ j → j ≤ k + 1 → ¬ pivotFail M.m j := by
    intro j hj1 hj2
    exact (firstPivotFail_eq_none M.m M.n).mp hfp j hj1 (by omega)
  have hxr := xrev_matVec M.m x k h0 hpiv
  rw [hmap, hk]
  apply List.ext_getElem
  · simp [hx, hk]
  · intro i hi1 hi2
    simp only [List.getElem_map, List.getElem_range]
    have hik : i < k + 2 := by simpa using hi1
    unfold xval
    rw [hxr (k + 2 - 1 - i) (by omega)]
    have h4 : k + 1 - (k + 2 - 1 - i) = i := by omega
    rw [h4]
    exact List.getD_eq_getElem _ _ hi2

/-- C1 as stated fails on the code: the shape-valid 1×1 matrix `[0]` with
`x = [1]` gives `r = M * x = [0]`, and `solve` returns the zero-pivot error
for row 0 instead of succeeding. -/
theorem C1_counterexample :
    New ([0] : List ℚ) = .ok ⟨1, [0]⟩ ∧ matVec [0] 1 [1] = [0] ∧
    TDMA ⟨1, [0]⟩ (matVec [0] 1 [1]) = .errPivot 0 := by
  refine ⟨rfl, ?_, ?_⟩
  · norm_num [matVec, matVecEntry, diag, subdiag, superdiag, List.range_succ]
  · norm_num [TDMA, matVec, matVecEntry, diag, subdiag, superdiag, List.range_succ]

/-- Witness for C1 (amended) on a concrete 2×2 system. -/
theorem C1_roundtrip_witness :
    Wellformed ⟨2, [2, 1, 1, 2]⟩ ∧
    TDMA ⟨2, [2, 1, 1, 2]⟩ (matVec [2, 1, 1, 2] 2 [1, 1]) = .ok [1, 1] ∧
    ([1, 1] : List ℚ) = [1, 1] :=
  ⟨by decide,
   by norm_num [TDMA, matVec, matVecEntry, diag, subdiag, superdiag,
     firstPivotFail, pivotFail, cval, dval, xval, xrev, List.find?, List.range_succ],
   C1_roundtrip ⟨2, [2, 1, 1, 2]⟩ [1, 1] (by decide) (by decide) [1, 1]
     (by norm_num [TDMA, matVec, matVecEntry, diag, subdiag, superdiag,
       firstPivotFail, pivotFail, cval, dval, xval, xrev, List.find?, List.range_succ])⟩
end Tdma
